import Mathlib

/-!
Shallow embedding of the benchmark-harness core of `perf_test_py27.py`:
the `Timer` context manager, the `percentile` order statistic, the
`runTest` iteration loop, and the `chunks` / `insert_json_files` batch
scheduler.  Durations and clock readings are modelled as rationals;
percentile arguments as integers (the harness calls `percentile(50)`),
with Python 2 floor division modelled by `Int.fdiv`.
-/

/-- Outcome of the `percentile` method: either a duration is returned, or the
list subscript raises `IndexError`. -/
inductive PercentileOutcome where
  | ok (d : ℚ)
  | indexError
deriving DecidableEq

/-- Python's adjustment of a (possibly negative) subscript `i` on a sequence of
length `len`: a negative subscript counts from the end. -/
def pyAdjustIndex (len : ℕ) (i : ℤ) : ℤ :=
  if i < 0 then i + len else i

/-- Python sequence subscript `l[i]`: negative indices count from the end, and
a subscript out of range yields `none` (an `IndexError`). -/
def pyGet {α : Type} (l : List α) (i : ℤ) : Option α :=
  let j := pyAdjustIndex l.length i
  if 0 ≤ j then l.get? j.toNat else none

/-- `sorted(self.results)` (line 104): the results sorted ascending. -/
def sorted_results (results : List ℚ) : List ℚ :=
  List.insertionSort (fun a b => a ≤ b) results

/-- `_PerformanceTest.percentile` (lines 102-108), on a run that did set
`self.results`:

    sorted_results = sorted(self.results)
    percentile_index = int(len(sorted_results) * percentile / 100) - 1
    return sorted_results[percentile_index]

`len * percentile / 100` is Python 2 integer floor division (`Int.fdiv`);
the subscript is the unchecked, unclamped Python subscript `pyGet`. -/
def percentile (results : List ℚ) (p : ℤ) : PercentileOutcome :=
  match pyGet (sorted_results results) (((results.length : ℤ) * p).fdiv 100 - 1) with
  | some d => .ok d
  | none => .indexError

/-- The percentile computation as worded by the spec (§4.2), for comparison
with `percentile`: sort ascending, then take the element at index
`floor(len * p / 100) - 1` CLAMPED to `[0, len-1]`. -/
def percentileClampedSpec (results : List ℚ) (p : ℤ) : PercentileOutcome :=
  let raw : ℤ := ((results.length : ℤ) * p).fdiv 100 - 1
  let clamped : ℤ := max 0 (min raw ((results.length : ℤ) - 1))
  match (sorted_results results).get? clamped.toNat with
  | some d => .ok d
  | none => .indexError

/-- The `Timer` context manager (lines 72-79): two wall-clock readings taken
by `__enter__` and `__exit__`.  The clock is `time.time` (line 21), so the
pair of readings is not constrained to be increasing. -/
structure Timer where
  start : ℚ
  stop : ℚ
deriving DecidableEq

/-- `Timer.__exit__` computes `self.interval = self.end - self.start`. -/
def Timer.interval (t : Timer) : ℚ :=
  t.stop - t.start

/-- Outcome of `_PerformanceTest.runTest`: on success `self.results` is set to
the recorded durations; when `do_task` raises, the exception propagates and the
durations recorded so far stay in the discarded local list. -/
inductive RunOutcome where
  | success (results : List ℚ)
  | failure (recorded : List ℚ)
deriving DecidableEq

/-- The loop of `runTest` (lines 114-120).  `clock k` is the value returned by
the `k`-th call of `time()` (call 0 is `start = time()`); each iteration makes
three calls: the budget check, `Timer.__enter__`, `Timer.__exit__`.  `taskOk i`
tells whether the `i`-th call of `do_task` succeeds.  Arguments: remaining
iterations (from `range(NUM_ITERATIONS)`), next clock-call index `k`, task-call
counter `i`, and the accumulated `results` list. -/
def runTestLoop (clock : ℕ → ℚ) (taskOk : ℕ → Bool) (start maxTime : ℚ) :
    ℕ → ℕ → ℕ → List ℚ → RunOutcome
  | 0, _, _, acc => .success acc
  | m + 1, k, i, acc =>
    if clock k - start > maxTime then .success acc
    else if taskOk i then
      runTestLoop clock taskOk start maxTime m (k + 3) (i + 1)
        (acc ++ [clock (k + 2) - clock (k + 1)])
    else .failure acc

/-- `_PerformanceTest.runTest` (lines 110-122) with iteration bound
`numIterations` and elapsed budget `maxIterationTime`. -/
def runTest (clock : ℕ → ℚ) (taskOk : ℕ → Bool) (numIterations : ℕ)
    (maxIterationTime : ℚ) : RunOutcome :=
  runTestLoop clock taskOk (clock 0) maxIterationTime numIterations 1 0 []

/-- Fuelled body of the `chunks` generator; the fuel only bounds the number of
emitted chunks and `l.length` is always enough fuel when `0 < n`. -/
def chunksGo {α : Type} (n : ℕ) : ℕ → List α → List (List α)
  | 0, _ => []
  | fuel + 1, l =>
    if l.isEmpty then []
    else l.take n :: chunksGo n fuel (l.drop n)

/-- `chunks` (lines 297-299):

    for i in range(0, len(l), n):
        yield l[i:i + n]

i.e. the slices `l[0:n], l[n:2n], ...` while nonempty.  Faithful to the Python
generator for every `n > 0` (for `n = 0` Python's `range` raises `ValueError`;
the claims only concern positive chunk sizes). -/
def chunks {α : Type} (l : List α) (n : ℕ) : List (List α) :=
  chunksGo n l.length l

/-- The chunk lengths produced by `chunks`, as a function of the input length
alone (used to evaluate concrete shapes such as 45 units with chunk size 20). -/
def chunkSizesGo (n : ℕ) : ℕ → ℕ → List ℕ
  | 0, _ => []
  | fuel + 1, m =>
    if m = 0 then []
    else min n m :: chunkSizesGo n fuel (m - n)

/-- Length profile of `chunks` on any list of length `m`. -/
def chunkSizes (m n : ℕ) : List ℕ :=
  chunkSizesGo n m m

/-- One chunked batch pass over a pre-chunked list of work units
(`insert_json_files`, lines 302-306): for each chunk in order, `gen.multi`
launches every unit of the chunk; if they all succeed the next chunk runs,
otherwise the whole batch fails and later chunks are never reached.  `unitOk u`
tells whether work unit `u` succeeds.  Returns the list of units that were
launched together with the success flag. -/
def runChunksGo {α : Type} (unitOk : α → Bool) : List (List α) → List α × Bool
  | [] => ([], true)
  | c :: cs =>
    if c.all unitOk then
      let rest := runChunksGo unitOk cs
      (c ++ rest.1, rest.2)
    else (c, false)

/-- Chunked batch execution with chunk size `n`. -/
def runChunked {α : Type} (unitOk : α → Bool) (files : List α) (n : ℕ) :
    List α × Bool :=
  runChunksGo unitOk (chunks files n)

/-- `insert_json_files` (lines 302-306): the batch scheduler instantiated with
the hard-coded chunk size 20. -/
def insert_json_files {α : Type} (unitOk : α → Bool) (files : List α) :
    List α × Bool :=
  runChunked unitOk files 20

/-! Helper lemmas about the sorted sample list. -/

lemma sorted_results_length (S : List ℚ) :
    (sorted_results S).length = S.length :=
  (List.perm_insertionSort _ S).length_eq

lemma mem_sorted_results (S : List ℚ) (x : ℚ) :
    x ∈ sorted_results S ↔ x ∈ S :=
  (List.perm_insertionSort _ S).mem_iff

lemma sorted_results_sorted (S : List ℚ) :
    (sorted_results S).Sorted (fun a b => a ≤ b) :=
  List.sorted_insertionSort _ S

lemma sorted_results_getD_mem (S : List ℚ) (j : ℕ)
    (hj : j < (sorted_results S).length) :
    (sorted_results S).getD j 0 ∈ S := by
  rw [List.getD_eq_get _ 0 hj]
  exact (mem_sorted_results S _).mp (List.get_mem _ j hj)

lemma le_sorted_results_getD_last (S : List ℚ) (hne : S ≠ []) (y : ℚ)
    (hy : y ∈ S) :
    y ≤ (sorted_results S).getD (S.length - 1) 0 := by
  have hlen := sorted_results_length S
  have hpos : 0 < S.length := List.length_pos.mpr hne
  have hlt : S.length - 1 < (sorted_results S).length := by omega
  obtain ⟨⟨i, hi⟩, hget⟩ := List.get_of_mem ((mem_sorted_results S y).mpr hy)
  rw [List.getD_eq_get _ 0 hlt]
  have hle : (⟨i, hi⟩ : Fin (sorted_results S).length) ≤ ⟨S.length - 1, hlt⟩ := by
    simp only [Fin.mk_le_mk]
    omega
  have := (sorted_results_sorted S).rel_get_of_le hle
  rw [hget] at this
  exact this

/-! Helper lemmas about Python floor division by 100 and the subscript. -/

lemma fdiv100_bounds (q : ℤ) :
    100 * q.fdiv 100 ≤ q ∧ q < 100 * q.fdiv 100 + 100 := by
  have h := Int.fdiv_add_fmod q 100
  have h1 : 0 ≤ q.fmod 100 := Int.fmod_nonneg' q (by norm_num)
  have h2 : q.fmod 100 < 100 := Int.fmod_lt_of_pos q (by norm_num)
  omega

lemma mul_p_bounds (n : ℕ) (p : ℤ) (h0 : 0 ≤ p) (h100 : p ≤ 100) :
    0 ≤ (n : ℤ) * p ∧ (n : ℤ) * p ≤ 100 * n := by
  constructor
  · exact mul_nonneg (Int.natCast_nonneg n) h0
  · calc (n : ℤ) * p ≤ (n : ℤ) * 100 :=
        mul_le_mul_of_nonneg_left h100 (Int.natCast_nonneg n)
    _ = 100 * n := mul_comm _ _

lemma D_bounds (S : List ℚ) (p : ℤ) (h0 : 0 ≤ p) (h100 : p ≤ 100) :
    0 ≤ ((S.length : ℤ) * p).fdiv 100 ∧
      ((S.length : ℤ) * p).fdiv 100 ≤ (S.length : ℤ) := by
  obtain ⟨hq0, hq1⟩ := mul_p_bounds S.length p h0 h100
  obtain ⟨hd0, hd1⟩ := fdiv100_bounds ((S.length : ℤ) * p)
  omega

lemma pyGet_eq_getD (l : List ℚ) (i : ℤ)
    (h0 : 0 ≤ pyAdjustIndex l.length i)
    (h1 : pyAdjustIndex l.length i < (l.length : ℤ)) :
    pyGet l i = some (l.getD (pyAdjustIndex l.length i).toNat 0) := by
  simp only [pyGet]
  rw [if_pos h0]
  have hlt : (pyAdjustIndex l.length i).toNat < l.length := by omega
  rw [List.get?_eq_get hlt, List.getD_eq_get l 0 hlt]

/-- Evaluation of `percentile` whenever the quotient
`D = (len * p).fdiv 100` lies in `[0, len]`: the method returns the sorted
sample at the adjusted (possibly wrapped-around) Python subscript `D - 1`. -/
lemma percentile_eq_getD (S : List ℚ) (p : ℤ) (hne : S ≠ [])
    (hd0 : 0 ≤ ((S.length : ℤ) * p).fdiv 100)
    (hd1 : ((S.length : ℤ) * p).fdiv 100 ≤ (S.length : ℤ)) :
    percentile S p = .ok ((sorted_results S).getD
      (pyAdjustIndex S.length (((S.length : ℤ) * p).fdiv 100 - 1)).toNat 0) := by
  have hlen := sorted_results_length S
  have hpos : 0 < S.length := List.length_pos.mpr hne
  have h0 : 0 ≤ pyAdjustIndex (sorted_results S).length
      (((S.length : ℤ) * p).fdiv 100 - 1) := by
    rw [hlen]
    unfold pyAdjustIndex
    split <;> omega
  have h1 : pyAdjustIndex (sorted_results S).length
      (((S.length : ℤ) * p).fdiv 100 - 1) < ((sorted_results S).length : ℤ) := by
    rw [hlen]
    unfold pyAdjustIndex
    split <;> omega
  simp only [percentile]
  rw [pyGet_eq_getD _ _ h0 h1, hlen]

/-- The adjusted subscript is within the sorted list whenever `D ∈ [0, len]`. -/
lemma pyAdjustIndex_lt (S : List ℚ) (p : ℤ) (hne : S ≠ [])
    (hd0 : 0 ≤ ((S.length : ℤ) * p).fdiv 100)
    (hd1 : ((S.length : ℤ) * p).fdiv 100 ≤ (S.length : ℤ)) :
    (pyAdjustIndex S.length (((S.length : ℤ) * p).fdiv 100 - 1)).toNat <
      (sorted_results S).length := by
  have hlen := sorted_results_length S
  have hpos : 0 < S.length := List.length_pos.mpr hne
  unfold pyAdjustIndex
  split <;> omega

/-- When `D = 0` or `D = len`, the subscript lands on the final (largest)
element of the sorted samples. -/
lemma percentile_eq_max (S : List ℚ) (p : ℤ) (hne : S ≠ [])
    (hD : ((S.length : ℤ) * p).fdiv 100 = 0 ∨
      ((S.length : ℤ) * p).fdiv 100 = (S.length : ℤ)) :
    ∃ d, percentile S p = .ok d ∧ d ∈ S ∧ ∀ y ∈ S, y ≤ d := by
  have hpos : 0 < S.length := List.length_pos.mpr hne
  have hd0 : 0 ≤ ((S.length : ℤ) * p).fdiv 100 := by rcases hD with h | h <;> omega
  have hd1 : ((S.length : ℤ) * p).fdiv 100 ≤ (S.length : ℤ) := by
    rcases hD with h | h <;> omega
  have hidx : (pyAdjustIndex S.length
      (((S.length : ℤ) * p).fdiv 100 - 1)).toNat = S.length - 1 := by
    unfold pyAdjustIndex
    rcases hD with h | h <;> rw [h] <;> split <;> omega
  refine ⟨(sorted_results S).getD (S.length - 1) 0, ?_, ?_, ?_⟩
  · rw [percentile_eq_getD S p hne hd0 hd1, hidx]
  · apply sorted_results_getD_mem
    rw [sorted_results_length]
    omega
  · exact fun y hy => le_sorted_results_getD_last S hne y hy

/-! Helper lemmas about the iteration loop. -/

lemma runTestLoop_budget (clock : ℕ → ℚ) (taskOk : ℕ → Bool)
    (start maxTime : ℚ) (m k i : ℕ) (acc : List ℚ)
    (hc : clock k - start > maxTime) :
    runTestLoop clock taskOk start maxTime (m + 1) k i acc = .success acc := by
  unfold runTestLoop
  rw [if_pos hc]

lemma runTestLoop_pass (clock : ℕ → ℚ) (taskOk : ℕ → Bool)
    (start maxTime : ℚ) (m k i : ℕ) (acc : List ℚ)
    (hc : ¬ clock k - start > maxTime) (ht : taskOk i = true) :
    runTestLoop clock taskOk start maxTime (m + 1) k i acc =
      runTestLoop clock taskOk start maxTime m (k + 3) (i + 1)
        (acc ++ [clock (k + 2) - clock (k + 1)]) := by
  conv_lhs => unfold runTestLoop
  rw [if_neg hc, if_pos ht]

lemma runTestLoop_fail (clock : ℕ → ℚ) (taskOk : ℕ → Bool)
    (start maxTime : ℚ) (m k i : ℕ) (acc : List ℚ)
    (hc : ¬ clock k - start > maxTime) (ht : taskOk i = false) :
    runTestLoop clock taskOk start maxTime (m + 1) k i acc = .failure acc := by
  unfold runTestLoop
  rw [if_neg hc, ht]
  simp

/-! Helper lemmas about the chunking generator and the batch pass. -/

lemma chunksGo_nil {α : Type} (n fuel : ℕ) :
    chunksGo (α := α) n fuel [] = [] := by
  cases fuel <;> simp [chunksGo]

lemma chunksGo_flatten {α : Type} (n : ℕ) (hn : 0 < n) :
    ∀ (fuel : ℕ) (l : List α), l.length ≤ fuel →
      (chunksGo n fuel l).flatten = l := by
  intro fuel
  induction fuel with
  | zero =>
    intro l hl
    have : l = [] := List.length_eq_zero.mp (Nat.le_zero.mp hl)
    subst this
    simp [chunksGo]
  | succ f ih =>
    intro l hl
    by_cases hemp : l.isEmpty
    · have : l = [] := List.isEmpty_iff.mp hemp
      subst this
      simp [chunksGo]
    · have hne : l ≠ [] := fun h => hemp (by simp [h])
      have hpos : 0 < l.length := List.length_pos.mpr hne
      simp only [chunksGo, hemp, Bool.false_eq_true, if_false, List.flatten_cons]
      rw [ih (l.drop n) (by rw [List.length_drop]; omega)]
      exact List.take_append_drop n l

lemma chunks_flatten {α : Type} (l : List α) (n : ℕ) (hn : 0 < n) :
    (chunks l n).flatten = l :=
  chunksGo_flatten n hn l.length l le_rfl

lemma chunksGo_map_length {α : Type} (n : ℕ) :
    ∀ (fuel : ℕ) (l : List α),
      (chunksGo n fuel l).map List.length = chunkSizesGo n fuel l.length := by
  intro fuel
  induction fuel with
  | zero => intro l; simp [chunksGo, chunkSizesGo]
  | succ f ih =>
    intro l
    by_cases hemp : l.isEmpty
    · have : l = [] := List.isEmpty_iff.mp hemp
      subst this
      simp [chunksGo, chunkSizesGo]
    · have hne : l ≠ [] := fun h => hemp (by simp [h])
      have hpos : 0 < l.length := List.length_pos.mpr hne
      simp only [chunksGo, hemp, Bool.false_eq_true, if_false, List.map_cons,
        chunkSizesGo, List.length_take]
      rw [if_neg (by omega), ih (l.drop n), List.length_drop]

lemma chunks_map_length {α : Type} (l : List α) (n : ℕ) :
    (chunks l n).map List.length = chunkSizes l.length n :=
  chunksGo_map_length n l.length l

lemma chunksGo_dropLast_length {α : Type} (n : ℕ) (hn : 0 < n) :
    ∀ (fuel : ℕ) (l : List α), l.length ≤ fuel →
      ∀ c ∈ (chunksGo n fuel l).dropLast, c.length = n := by
  intro fuel
  induction fuel with
  | zero => intro l hl c hc; simp [chunksGo] at hc
  | succ f ih =>
    intro l hl c hc
    by_cases hemp : l.isEmpty
    · simp [chunksGo, hemp] at hc
    · simp only [chunksGo, hemp, Bool.false_eq_true, if_false] at hc
      rcases hrest : chunksGo n f (l.drop n) with _ | ⟨b, t⟩
      · rw [hrest] at hc
        simp at hc
      · rw [hrest, List.dropLast_cons₂, List.mem_cons] at hc
        rcases hc with hc | hc
        · subst hc
          have hdropne : l.drop n ≠ [] := by
            intro hdrop
            rw [hdrop, chunksGo_nil] at hrest
            exact List.cons_ne_nil b t hrest.symm
          have : 0 < (l.drop n).length := List.length_pos.mpr hdropne
          rw [List.length_drop] at this
          rw [List.length_take]
          omega
        · rw [← hrest] at hc
          exact ih (l.drop n) (by rw [List.length_drop]; omega) c hc

lemma chunks_dropLast_length {α : Type} (l : List α) (n : ℕ) (hn : 0 < n) :
    ∀ c ∈ (chunks l n).dropLast, c.length = n :=
  chunksGo_dropLast_length n hn l.length l le_rfl

lemma chunksGo_bounds {α : Type} (n : ℕ) (hn : 0 < n) :
    ∀ (fuel : ℕ) (l : List α), ∀ c ∈ chunksGo n fuel l, c ≠ [] ∧ c.length ≤ n := by
  intro fuel
  induction fuel with
  | zero => intro l c hc; simp [chunksGo] at hc
  | succ f ih =>
    intro l c hc
    by_cases hemp : l.isEmpty
    · simp [chunksGo, hemp] at hc
    · have hne : l ≠ [] := fun h => hemp (by simp [h])
      have hpos : 0 < l.length := List.length_pos.mpr hne
      simp only [chunksGo, hemp, Bool.false_eq_true, if_false, List.mem_cons] at hc
      rcases hc with hc | hc
      · subst hc
        constructor
        · intro htake
          have hlen0 := congrArg List.length htake
          rw [List.length_take, List.length_nil] at hlen0
          omega
        · rw [List.length_take]
          exact min_le_left n l.length
      · exact ih (l.drop n) c hc

lemma chunks_bounds {α : Type} (l : List α) (n : ℕ) (hn : 0 < n) :
    ∀ c ∈ chunks l n, c ≠ [] ∧ c.length ≤ n :=
  chunksGo_bounds n hn l.length l

lemma runChunksGo_all_ok {α : Type} (unitOk : α → Bool) :
    ∀ cs : List (List α), (∀ c ∈ cs, ∀ u ∈ c, unitOk u = true) →
      runChunksGo unitOk cs = (cs.flatten, true) := by
  intro cs
  induction cs with
  | nil => intro _; simp [runChunksGo]
  | cons c t ih =>
    intro h
    have hc : c.all unitOk = true :=
      List.all_eq_true.mpr fun u hu => h c (List.mem_cons_self c t) u hu
    simp only [runChunksGo, hc, if_true, List.flatten_cons]
    rw [ih fun d hd u hu => h d (List.mem_cons_of_mem c hd) u hu]

lemma runChunksGo_failfast {α : Type} (unitOk : α → Bool) :
    ∀ (K : ℕ) (cs : List (List α)),
      (∀ j, j < K → ((cs.getD j []).all unitOk = true)) →
      (cs.getD K []).all unitOk = false →
      runChunksGo unitOk cs = ((cs.take (K + 1)).flatten, false) := by
  intro K
  induction K with
  | zero =>
    intro cs hpre hfail
    rcases cs with _ | ⟨c, t⟩
    · simp at hfail
    · simp only [List.getD_cons_zero] at hfail
      simp only [runChunksGo, hfail, Bool.false_eq_true, if_false]
      simp
  | succ K ih =>
    intro cs hpre hfail
    rcases cs with _ | ⟨c, t⟩
    · simp at hfail
    · have hc : c.all unitOk = true := by
        have := hpre 0 (Nat.succ_pos K)
        simpa using this
      simp only [List.getD_cons_succ] at hfail
      have hpre' : ∀ j, j < K → ((t.getD j []).all unitOk = true) := by
        intro j hj
        have := hpre (j + 1) (Nat.succ_lt_succ hj)
        simpa using this
      simp only [runChunksGo, hc, if_true]
      rw [ih t hpre' hfail]
      simp [List.take_cons]

/-- Concrete clock trace for the zero-budget scenario: the run-start reading
and the first budget check coincide, and every later reading is larger. -/
def clockW : ℕ → ℚ :=
  fun k => if k ≤ 1 then 0 else k

/-- Concrete strictly increasing clock trace. -/
def clockLin : ℕ → ℚ :=
  fun k => k

/-- C1 (counterexample): `percentile` does NOT clamp the index.  On samples
`[1, 2]` with percentile 0 the raw index is `-1`; the clamped-index
computation of the claim returns the smallest sample 1, while the code's
Python subscript wraps around and returns 2. -/
theorem percentile_clamping_cex :
    percentile [1, 2] 0 = .ok 2 ∧ percentileClampedSpec [1, 2] 0 = .ok 1 ∧
      percentile [1, 2] 0 ≠ percentileClampedSpec [1, 2] 0 := by
  decide

/-- C1 (amended): for nonempty samples and a percentile in `[0, 100]`, the
computation sorts ascending and returns the element at the UNCLAMPED Python
subscript `floor(len * p / 100) - 1`, where a negative subscript (only `-1`
can occur) counts from the end of the sorted list. -/
theorem percentile_unclamped_python_index (S : List ℚ) (p : ℤ)
    (hne : S ≠ []) (h0 : 0 ≤ p) (h100 : p ≤ 100) :
    percentile S p = .ok ((sorted_results S).getD
      (pyAdjustIndex S.length (((S.length : ℤ) * p).fdiv 100 - 1)).toNat 0) := by
  obtain ⟨hd0, hd1⟩ := D_bounds S p h0 h100
  exact percentile_eq_getD S p hne hd0 hd1

/-- C1 (witness): the amended statement evaluated on samples `[4, 7]` with
percentile 50. -/
theorem percentile_unclamped_python_index_witness :
    (([4, 7] : List ℚ) ≠ [] ∧ (0 : ℤ) ≤ 50 ∧ (50 : ℤ) ≤ 100) ∧
    percentile [4, 7] 50 = .ok ((sorted_results [4, 7]).getD
      (pyAdjustIndex ([4, 7] : List ℚ).length
        ((((([4, 7] : List ℚ).length) : ℤ) * 50).fdiv 100 - 1)).toNat 0) :=
  ⟨⟨by decide, by decide, by decide⟩,
    percentile_unclamped_python_index [4, 7] 50 (by decide) (by decide) (by decide)⟩

/-- C2: for nonempty samples and a percentile in `[1, 100]`, the returned
value is an element of the samples (nearest-rank, no interpolation), and at
percentile 100 it is the maximum sample. -/
theorem percentile_nearest_rank (S : List ℚ) (p : ℤ)
    (hne : S ≠ []) (h1 : 1 ≤ p) (h100 : p ≤ 100) :
    ∃ d, percentile S p = .ok d ∧ d ∈ S ∧ (p = 100 → ∀ y ∈ S, y ≤ d) := by
  obtain ⟨hd0, hd1⟩ := D_bounds S p (by omega) h100
  refine ⟨_, percentile_eq_getD S p hne hd0 hd1, ?_, ?_⟩
  · exact sorted_results_getD_mem S _ (pyAdjustIndex_lt S p hne hd0 hd1)
  · intro hp y hy
    have hidx : (pyAdjustIndex S.length
        (((S.length : ℤ) * p).fdiv 100 - 1)).toNat = S.length - 1 := by
      subst hp
      have hpos : 0 < S.length := List.length_pos.mpr hne
      have hD : ((S.length : ℤ) * 100).fdiv 100 = (S.length : ℤ) := by
        obtain ⟨ha, hb⟩ := fdiv100_bounds ((S.length : ℤ) * 100)
        omega
      unfold pyAdjustIndex
      rw [hD]
      split <;> omega
    rw [hidx]
    exact le_sorted_results_getD_last S hne y hy

/-- C2 (witness): the nearest-rank statement evaluated on `[3, 1, 2]` with
percentile 100. -/
theorem percentile_nearest_rank_witness :
    (([3, 1, 2] : List ℚ) ≠ [] ∧ (1 : ℤ) ≤ 100 ∧ (100 : ℤ) ≤ 100) ∧
    ∃ d, percentile [3, 1, 2] 100 = .ok d ∧ d ∈ ([3, 1, 2] : List ℚ) ∧
      ((100 : ℤ) = 100 → ∀ y ∈ ([3, 1, 2] : List ℚ), y ≤ d) :=
  ⟨⟨by decide, by decide, by decide⟩,
    percentile_nearest_rank [3, 1, 2] 100 (by decide) (by decide) (by decide)⟩

/-- C3 (counterexample): no percentile validation exists.  With a single
sample and percentile 101 (outside `[0, 100]`) the computed index is 0 and
the method successfully returns the sample instead of failing. -/
theorem percentile_no_range_check_cex :
    percentile [5] 101 = .ok 5 := by
  decide

/-- C3 (amended): the code never signals an invalid-percentile error.  For a
percentile just above 100 (while `len * p < 100 * (len + 1)`) it successfully
returns the maximum sample; other out-of-range requests at most raise
`IndexError` from the subscript itself. -/
theorem percentile_above_100_returns (S : List ℚ) (p : ℤ)
    (hne : S ≠ []) (hp : 100 < p)
    (hub : (S.length : ℤ) * p < 100 * ((S.length : ℤ) + 1)) :
    ∃ d, percentile S p = .ok d ∧ d ∈ S ∧ ∀ y ∈ S, y ≤ d := by
  apply percentile_eq_max S p hne
  right
  have hpos : 0 < S.length := List.length_pos.mpr hne
  have hlb : (S.length : ℤ) * 101 ≤ (S.length : ℤ) * p :=
    mul_le_mul_of_nonneg_left (by omega) (Int.natCast_nonneg S.length)
  obtain ⟨ha, hb⟩ := fdiv100_bounds ((S.length : ℤ) * p)
  omega

/-- C3 (witness): the amended statement evaluated on `[5]` with
percentile 101. -/
theorem percentile_above_100_returns_witness :
    (([5] : List ℚ) ≠ [] ∧ (100 : ℤ) < 101 ∧
      ((([5] : List ℚ).length : ℤ) * 101 < 100 * ((([5] : List ℚ).length : ℤ) + 1))) ∧
    ∃ d, percentile [5] 101 = .ok d ∧ d ∈ ([5] : List ℚ) ∧
      ∀ y ∈ ([5] : List ℚ), y ≤ d :=
  ⟨⟨by decide, by decide, by decide⟩,
    percentile_above_100_returns [5] 101 (by decide) (by decide) (by decide)⟩

/-- C4: with `maxIterations = 1000000` and a zero elapsed budget, if the
budget check right after `start = time()` sees no elapsed time while the
check at the start of the second iteration does, the run completes
successfully with exactly the one duration recorded by the first iteration:
the budget is only tested at iteration start, so the in-flight first
iteration finishes. -/
theorem runTest_zero_budget_one_iteration (clock : ℕ → ℚ) (taskOk : ℕ → Bool)
    (htask : taskOk 0 = true)
    (hcheck : clock 1 - clock 0 ≤ 0) (helapsed : clock 4 - clock 0 > 0) :
    runTest clock taskOk 1000000 0 = .success [clock 3 - clock 2] := by
  unfold runTest
  rw [show (1000000 : ℕ) = 999999 + 1 from by norm_num]
  rw [runTestLoop_pass clock taskOk (clock 0) 0 999999 1 0 [] (not_lt.mpr hcheck) htask]
  rw [show (999999 : ℕ) = 999998 + 1 from by norm_num]
  rw [runTestLoop_budget clock taskOk (clock 0) 0 999998 (1 + 3) _ _
    (by norm_num at helapsed ⊢; exact helapsed)]
  norm_num

/-- C4 (witness): the zero-budget statement evaluated on the concrete clock
trace `clockW` and an always-succeeding task. -/
theorem runTest_zero_budget_one_iteration_witness :
    ((fun _ : ℕ => true) 0 = true ∧ clockW 1 - clockW 0 ≤ 0 ∧
      clockW 4 - clockW 0 > 0) ∧
    runTest clockW (fun _ => true) 1000000 0 = .success [clockW 3 - clockW 2] :=
  ⟨⟨rfl, by norm_num [clockW], by norm_num [clockW]⟩,
    runTest_zero_budget_one_iteration clockW (fun _ => true) rfl
      (by norm_num [clockW]) (by norm_num [clockW])⟩

/-- C5: when the task succeeds on its first two calls and fails on the third,
a run with `maxIterations = 10` (and a budget that the first three iteration
starts do not exceed) aborts during the third iteration: the failure
propagates (no retry, iterations 4..10 never run) and exactly the two
durations of iterations 1 and 2 were recorded. -/
theorem runTest_third_task_failure (clock : ℕ → ℚ) (taskOk : ℕ → Bool) (mt : ℚ)
    (ht0 : taskOk 0 = true) (ht1 : taskOk 1 = true) (ht2 : taskOk 2 = false)
    (hc1 : clock 1 - clock 0 ≤ mt) (hc4 : clock 4 - clock 0 ≤ mt)
    (hc7 : clock 7 - clock 0 ≤ mt) :
    runTest clock taskOk 10 mt = .failure [clock 3 - clock 2, clock 6 - clock 5] := by
  unfold runTest
  rw [show (10 : ℕ) = 9 + 1 from by norm_num]
  rw [runTestLoop_pass clock taskOk (clock 0) mt 9 1 0 [] (not_lt.mpr hc1) ht0]
  rw [show (9 : ℕ) = 8 + 1 from by norm_num]
  rw [runTestLoop_pass clock taskOk (clock 0) mt 8 (1 + 3) _ _
    (by norm_num at hc4 ⊢; exact hc4) (by norm_num; exact ht1)]
  rw [show (8 : ℕ) = 7 + 1 from by norm_num]
  rw [runTestLoop_fail clock taskOk (clock 0) mt 7 (1 + 3 + 3) _ _
    (by norm_num at hc7 ⊢; exact hc7) (by norm_num; exact ht2)]
  norm_num

/-- C5 (witness): the third-call-failure statement evaluated on the concrete
clock trace `clockLin`, a task that fails on its third call, and budget
300. -/
theorem runTest_third_task_failure_witness :
    ((fun i : ℕ => decide (i < 2)) 0 = true ∧
      (fun i : ℕ => decide (i < 2)) 1 = true ∧
      (fun i : ℕ => decide (i < 2)) 2 = false ∧
      clockLin 1 - clockLin 0 ≤ 300 ∧ clockLin 4 - clockLin 0 ≤ 300 ∧
      clockLin 7 - clockLin 0 ≤ 300) ∧
    runTest clockLin (fun i => decide (i < 2)) 10 300 =
      .failure [clockLin 3 - clockLin 2, clockLin 6 - clockLin 5] :=
  ⟨⟨rfl, rfl, rfl, by norm_num [clockLin], by norm_num [clockLin],
      by norm_num [clockLin]⟩,
    runTest_third_task_failure clockLin (fun i => decide (i < 2)) 300
      rfl rfl rfl (by norm_num [clockLin]) (by norm_num [clockLin])
      (by norm_num [clockLin])⟩

/-- C6: for every positive chunk size, `chunks` partitions the units into
contiguous chunks of that size (a possibly shorter, nonempty final chunk), in
order, whose concatenation is the original list; 45 units with chunk size 20
give exactly the chunk sizes 20, 20, 5; and the batch pass over the chunks
executes every unit when all units succeed. -/
theorem chunks_partition {α : Type} (unitOk : α → Bool) (l : List α) (n : ℕ)
    (hn : 0 < n) :
    (chunks l n).flatten = l ∧
    (∀ c ∈ (chunks l n).dropLast, c.length = n) ∧
    (∀ c ∈ chunks l n, c ≠ [] ∧ c.length ≤ n) ∧
    (l.length = 45 → (chunks l 20).map List.length = [20, 20, 5]) ∧
    ((∀ u ∈ l, unitOk u = true) → runChunked unitOk l n = (l, true)) := by
  refine ⟨chunks_flatten l n hn, chunks_dropLast_length l n hn,
    chunks_bounds l n hn, ?_, ?_⟩
  · intro h45
    rw [chunks_map_length, h45]
    decide
  · intro hall
    have hchunks : ∀ c ∈ chunks l n, ∀ u ∈ c, unitOk u = true := by
      intro c hc u hu
      apply hall u
      rw [← chunks_flatten l n hn]
      exact List.mem_flatten.mpr ⟨c, hc, hu⟩
    unfold runChunked
    rw [runChunksGo_all_ok unitOk (chunks l n) hchunks, chunks_flatten l n hn]

/-- C6 (witness): the partition statement evaluated on 45 units with chunk
size 20 and all units succeeding. -/
theorem chunks_partition_witness :
    0 < 20 ∧
    ((chunks (List.range 45) 20).flatten = List.range 45 ∧
     (∀ c ∈ (chunks (List.range 45) 20).dropLast, c.length = 20) ∧
     (∀ c ∈ chunks (List.range 45) 20, c ≠ [] ∧ c.length ≤ 20) ∧
     ((List.range 45).length = 45 →
       (chunks (List.range 45) 20).map List.length = [20, 20, 5]) ∧
     ((∀ u ∈ List.range 45, (fun _ : ℕ => true) u = true) →
       runChunked (fun _ : ℕ => true) (List.range 45) 20 = (List.range 45, true))) :=
  ⟨by decide, chunks_partition (fun _ => true) (List.range 45) 20 (by decide)⟩

/-- C7: if every chunk before chunk `K` fully succeeds and some unit of chunk
`K` fails, the chunked batch run surfaces the failure (flag `false`) and the
launched units are exactly those of chunks `0..K`: no chunk after the failing
one is ever started. -/
theorem runChunked_failfast {α : Type} (unitOk : α → Bool) (files : List α)
    (n K : ℕ)
    (hpre : ∀ j, j < K → ((chunks files n).getD j []).all unitOk = true)
    (hfail : ((chunks files n).getD K []).all unitOk = false) :
    runChunked unitOk files n = (((chunks files n).take (K + 1)).flatten, false) :=
  runChunksGo_failfast unitOk K (chunks files n) hpre hfail

/-- C7 (witness): 45 units in chunks of 20 where unit 25 (in chunk 2 of 3)
fails: the run stops after chunk 2, with failure surfaced. -/
theorem runChunked_failfast_witness :
    ((∀ j, j < 1 → ((chunks (List.range 45) 20).getD j []).all
        (fun u => decide (u ≠ 25)) = true) ∧
      ((chunks (List.range 45) 20).getD 1 []).all
        (fun u => decide (u ≠ 25)) = false) ∧
    runChunked (fun u => decide (u ≠ 25)) (List.range 45) 20 =
      (((chunks (List.range 45) 20).take 2).flatten, false) :=
  ⟨⟨by decide, by decide⟩,
    runChunked_failfast (fun u => decide (u ≠ 25)) (List.range 45) 20 1
      (by decide) (by decide)⟩

/-- C8 (counterexample): the subscript can leave the valid range.  With one
collected sample and percentile 300 the computed index is 2, outside the
sorted sequence, and the access fails with `IndexError`. -/
theorem percentile_subscript_oob_cex :
    ((((([1] : List ℚ).length) : ℤ) * 300).fdiv 100 - 1 = 2) ∧
      percentile [1] 300 = .indexError := by
  decide

/-- C8 (amended): for a nonempty collected sequence and a percentile in
`[0, 100]`, the subscript always lands on a valid position of the sorted
sample sequence and the access succeeds. -/
theorem percentile_in_bounds (S : List ℚ) (p : ℤ)
    (hne : S ≠ []) (h0 : 0 ≤ p) (h100 : p ≤ 100) :
    ∃ d, percentile S p = .ok d := by
  obtain ⟨hd0, hd1⟩ := D_bounds S p h0 h100
  exact ⟨_, percentile_eq_getD S p hne hd0 hd1⟩

/-- C8 (witness): the in-bounds statement evaluated on `[1, 2, 3]` with
percentile 50. -/
theorem percentile_in_bounds_witness :
    (([1, 2, 3] : List ℚ) ≠ [] ∧ (0 : ℤ) ≤ 50 ∧ (50 : ℤ) ≤ 100) ∧
    ∃ d, percentile [1, 2, 3] 50 = .ok d :=
  ⟨⟨by decide, by decide, by decide⟩,
    percentile_in_bounds [1, 2, 3] 50 (by decide) (by decide) (by decide)⟩

/-- C9 (counterexample): the source clock is `time.time` (wall clock), whose
readings may decrease across clock adjustments; on the reading pair
`start = 1`, `stop = 0` the exposed interval is negative. -/
theorem timer_negative_interval_cex :
    (Timer.mk 1 0).interval < 0 := by
  norm_num [Timer.interval]

/-- C9 (amended): the Timer exposes `elapsed = stop - start`, which is
non-negative whenever the second reading is at least the first; the code's
wall-clock source does not guarantee that ordering. -/
theorem timer_interval_spec (t : Timer) (h : t.start ≤ t.stop) :
    t.interval = t.stop - t.start ∧ 0 ≤ t.interval := by
  refine ⟨rfl, ?_⟩
  unfold Timer.interval
  linarith

/-- C9 (witness): the interval statement evaluated on the reading pair
`(0, 5)`. -/
theorem timer_interval_spec_witness :
    (Timer.mk 0 5).start ≤ (Timer.mk 0 5).stop ∧
    ((Timer.mk 0 5).interval = (Timer.mk 0 5).stop - (Timer.mk 0 5).start ∧
      0 ≤ (Timer.mk 0 5).interval) :=
  ⟨by decide, timer_interval_spec (Timer.mk 0 5) (by decide)⟩

/-- C10: for nonempty samples and a percentile `p ∈ [0, 100]` small enough
that `floor(len * p / 100) = 0`, the raw index is `-1`, the Python subscript
wraps to the final element of the ascending sort, and the method returns the
LARGEST sample. -/
theorem percentile_index_wraps_to_max (S : List ℚ) (p : ℤ)
    (hne : S ≠ []) (_h0 : 0 ≤ p)
    (hD : ((S.length : ℤ) * p).fdiv 100 = 0) :
    ∃ d, percentile S p = .ok d ∧ d ∈ S ∧ ∀ y ∈ S, y ≤ d :=
  percentile_eq_max S p hne (Or.inl hD)

/-- C10 (witness): the wrap-around statement evaluated on `[1, 2]` with
percentile 30 (raw index `-1`): the result is 2, the largest sample. -/
theorem percentile_index_wraps_to_max_witness :
    (([1, 2] : List ℚ) ≠ [] ∧ (0 : ℤ) ≤ 30 ∧
      ((([1, 2] : List ℚ).length : ℤ) * 30).fdiv 100 = 0) ∧
    ∃ d, percentile [1, 2] 30 = .ok d ∧ d ∈ ([1, 2] : List ℚ) ∧
      ∀ y ∈ ([1, 2] : List ℚ), y ≤ d :=
  ⟨⟨by decide, by decide, by decide⟩,
    percentile_index_wraps_to_max [1, 2] 30 (by decide) (by decide) (by decide)⟩
